import Mathlib

/-!
Verification development for the scrypted-hikvision-utilities plugin.

The definitions below are shallow embeddings of the plugin's TypeScript
functions: the pure value-transcoding helpers (`formatFrameRate`,
`parseFrameRate`, `generateBitrateChoices`), the motion-detection
capability parsing and textual document patching of the Hikvision
client, the timezone transcoding of the camera mixin, the overlay
listener reconciliation pass, and the initialization sequence.
JS numbers that stay exact rationals are modelled by an explicit
numerator/denominator pair (`JsRat`); machine strings are Lean strings.
-/

/-- Exact rational value of a JS number as used by the frame-rate
converters.  The denominator is kept nonzero (and positive by every
operation used here); no normalization is performed. -/
structure JsRat where
  num : Int
  den : Int
deriving DecidableEq, Repr

/-- The JS number literal `n` (an integer). -/
def JsRat.ofInt (n : Int) : JsRat := ⟨n, 1⟩

/-- Exact JS division `a / b` for rationals (defined when `b ≠ 0`). -/
def JsRat.div (a b : JsRat) : JsRat := ⟨a.num * b.den, a.den * b.num⟩

/-- Exact JS multiplication `a * b`. -/
def JsRat.mul (a b : JsRat) : JsRat := ⟨a.num * b.num, a.den * b.den⟩

/-- JS `==` on numbers: value equality of the exact rationals
(cross multiplication). -/
def JsRat.jsEq (a b : JsRat) : Bool := a.num * b.den == b.num * a.den

/-- JS `Math.round`: round half toward positive infinity,
`⌊x + 1/2⌋`, computed on the exact rational. -/
def jsMathRound (x : JsRat) : Int :=
  let n := if x.den < 0 then -x.num else x.num
  let d := if x.den < 0 then -x.den else x.den
  Int.fdiv (2 * n + d) (2 * d)

/-- Decimal rendering of the JS number `frameRate / 100` as produced by
`String(frameRate / 100)` for an integer centesimal `frameRate ≥ 100`:
the quotient printed as a shortest decimal with at most two fraction
digits. -/
def centiQuotientString (frameRate : Int) : String :=
  let ip := frameRate / 100
  let rem := frameRate % 100
  if rem == 0 then toString ip
  else if rem % 10 == 0 then toString ip ++ "." ++ toString (rem / 10)
  else toString ip ++ "." ++ (if rem < 10 then "0" else "") ++ toString rem

/-- Function `formatFrameRate` from `utils.ts`: converts a centesimal frame rate
to its human-readable label.  `frameRate ≥ 100` renders the quotient
`frameRate / 100`; otherwise the label is `"1/" + Math.round(100 / frameRate)`. -/
def formatFrameRate (frameRate : Int) : String :=
  if frameRate ≥ 100 then centiQuotientString frameRate
  else "1/" ++ toString (jsMathRound (JsRat.div (JsRat.ofInt 100) (JsRat.ofInt frameRate)))

/-- Value of a decimal digit character. -/
def digitVal (c : Char) : Int := if '0' ≤ c ∧ c ≤ '9' then (c.toNat : Int) - 48 else 0

/-- Longest leading run of decimal digits of a character list, as
(value, number of digits consumed, remainder). -/
def takeDigits : List Char → Int → Nat → Int × Nat × List Char
  | [], acc, k => (acc, k, [])
  | c :: rest, acc, k =>
    if '0' ≤ c ∧ c ≤ '9' then takeDigits rest (acc * 10 + digitVal c) (k + 1)
    else (acc, k, c :: rest)

/-- JS `Number(s)` restricted to the plain decimal literals this module
produces (`digits` or `digits.digits`); `none` models `NaN`. -/
def jsNumberChars (s : List Char) : Option JsRat :=
  let (ip, k, rest) := takeDigits s 0 0
  if k == 0 then none
  else match rest with
    | [] => some (JsRat.ofInt ip)
    | '.' :: frac =>
      let (fp, m, rest2) := takeDigits frac 0 0
      if m == 0 ∨ ¬ rest2.isEmpty then none
      else some ⟨ip * (10 : Int) ^ m + fp, (10 : Int) ^ m⟩
    | _ => none

/-- JS `String.prototype.split` with a single-character separator, on
character lists. -/
def splitOnChar (c : Char) : List Char → List Char → List (List Char)
  | [], acc => [acc.reverse]
  | x :: xs, acc =>
    if x == c then acc.reverse :: splitOnChar c xs [] else splitOnChar c xs (x :: acc)

/-- Function `parseFrameRate` from `utils.ts`: converts a human-readable frame
rate label back to the centesimal value.  A label containing `/` is
split as `k/d` and yields `Math.round((k / d) * 100)`; otherwise the
result is `Number(label) * 100`.  `none` models a `NaN` result. -/
def parseFrameRate (s : String) : Option JsRat :=
  if s.data.contains '/' then
    match splitOnChar '/' s.data [] with
    | a :: b :: _ => do
      let n ← jsNumberChars a
      let d ← jsNumberChars b
      pure (JsRat.ofInt (jsMathRound (JsRat.mul (JsRat.div n d) (JsRat.ofInt 100))))
    | _ => none
  else (jsNumberChars s.data).map (fun v => JsRat.mul v (JsRat.ofInt 100))

/-- The fixed ladder of standard kbps values from
`generateBitrateChoices` in `utils.ts`. -/
def standardBitrateValues : List Int :=
  [32, 64, 128, 256, 512, 768, 1024, 1536, 2048, 3072, 4096,
   6144, 8192, 12288, 16384, 20480, 24576, 32768]

/-- Function `generateBitrateChoices` from `utils.ts`: the standard values lying
in `[lo, hi]` (as strings), with `String(lo)` prepended when absent and
`String(hi)` appended when absent. -/
def generateBitrateChoices (lo hi : Int) : List String :=
  let choices := (standardBitrateValues.filter (fun v => lo ≤ v ∧ v ≤ hi)).map toString
  let choices := if toString lo ∈ choices then choices else toString lo :: choices
  if toString hi ∈ choices then choices else choices ++ [toString hi]

theorem mem_consIfAbsent {α : Type} [DecidableEq α] (c : α) (l : List α) (x : α) :
    (x ∈ if c ∈ l then l else c :: l) ↔ x = c ∨ x ∈ l := by
  by_cases h : c ∈ l
  · rw [if_pos h]
    constructor
    · exact Or.inr
    · rintro (rfl | hx)
      · exact h
      · exact hx
  · rw [if_neg h, List.mem_cons]

theorem mem_appendIfAbsent {α : Type} [DecidableEq α] (c : α) (l : List α) (x : α) :
    (x ∈ if c ∈ l then l else l ++ [c]) ↔ x = c ∨ x ∈ l := by
  by_cases h : c ∈ l
  · rw [if_pos h]
    constructor
    · exact Or.inr
    · rintro (rfl | hx)
      · exact h
      · exact hx
  · rw [if_neg h]
    simp only [List.mem_append, List.mem_singleton]
    tauto

/-- C5: For every centesimal frame rate n in {6, 50, 100, 2500},
`parseFrameRate (formatFrameRate n)` is a number equal (JS `==`) to n:
the label renders n ≥ 100 as the integer quotient n/100 and n < 100 as
"1/" ++ round(100/n), and the parser inverts both forms. -/
theorem frameRate_roundtrip_centesimal :
    (parseFrameRate (formatFrameRate 6)).map (fun v => v.jsEq (JsRat.ofInt 6)) = some true
    ∧ (parseFrameRate (formatFrameRate 50)).map (fun v => v.jsEq (JsRat.ofInt 50)) = some true
    ∧ (parseFrameRate (formatFrameRate 100)).map (fun v => v.jsEq (JsRat.ofInt 100)) = some true
    ∧ (parseFrameRate (formatFrameRate 2500)).map (fun v => v.jsEq (JsRat.ofInt 2500)) = some true := by
  decide

/-- C6: `generateBitrateChoices lo hi` is the standard ladder
intersected with `[lo, hi]` together with the force-included `lo` and
`hi`; for lo = 512 and hi = 4096 it is exactly the on-ladder values
512..4096 (so it contains "512" and "4096" and excludes "32" and
"8192"). -/
theorem generateBitrateChoices_spec :
    generateBitrateChoices 512 4096
      = ["512", "768", "1024", "1536", "2048", "3072", "4096"]
    ∧ ∀ (lo hi : Int) (s : String),
        s ∈ generateBitrateChoices lo hi
          ↔ s = toString lo ∨ s = toString hi
            ∨ ∃ v ∈ standardBitrateValues, lo ≤ v ∧ v ≤ hi ∧ s = toString v := by
  constructor
  · decide
  · intro lo hi s
    unfold generateBitrateChoices
    rw [mem_appendIfAbsent, mem_consIfAbsent]
    simp only [List.mem_map, List.mem_filter]
    constructor
    · rintro (rfl | rfl | ⟨v, ⟨hv, hrange⟩, rfl⟩)
      · exact Or.inr (Or.inl rfl)
      · exact Or.inl rfl
      · rw [decide_eq_true_eq] at hrange
        exact Or.inr (Or.inr ⟨v, hv, hrange.1, hrange.2, rfl⟩)
    · rintro (rfl | rfl | ⟨v, hv, h1, h2, rfl⟩)
      · exact Or.inr (Or.inl rfl)
      · exact Or.inl rfl
      · exact Or.inr (Or.inr ⟨v, ⟨hv, by rw [decide_eq_true_eq]; exact ⟨h1, h2⟩⟩, rfl⟩)

/-- Witness for C6 at lo = 512, hi = 4096, s = "512". -/
theorem generateBitrateChoices_spec_witness :
    "512" ∈ generateBitrateChoices 512 4096 :=
  (generateBitrateChoices_spec.2 512 4096 "512").mpr (Or.inl rfl)

/-- The loop `for (let i = min + step; i <= max; i += step)` of
`getMotionCapabilities` in `client.ts`, pushing `String(i)` on each
iteration, with explicit fuel: `none` models running out of fuel, so
divergence of the source loop is `none` for every fuel. -/
def sensLoop : Nat → Int → Int → Int → Option (List String)
  | 0, _, _, _ => none
  | fuel + 1, mx, step, i =>
    if i ≤ mx then (sensLoop fuel mx step (i + step)).map (toString i :: ·) else some []

/-- The `sensitivityOptions` list built by `getMotionCapabilities`:
`[String(min)]` followed by the loop values. -/
def sensitivityOptions (fuel : Nat) (mn mx step : Int) : Option (List String) :=
  (sensLoop fuel mx step (mn + step)).map (toString mn :: ·)

theorem sensLoop_isSome (mx step : Int) (hstep : 0 < step) :
    ∀ (n : Nat) (i : Int) (fuel : Nat), (mx - i).toNat ≤ n → n + 2 ≤ fuel →
      (sensLoop fuel mx step i).isSome := by
  intro n
  induction n with
  | zero =>
    intro i fuel hn hfuel
    obtain ⟨f, rfl⟩ : ∃ f, fuel = f + 2 := ⟨fuel - 2, by omega⟩
    have hle : mx ≤ i := by omega
    by_cases hi : i ≤ mx
    · have : ¬ i + step ≤ mx := by omega
      simp [sensLoop, hi, this]
    · simp [sensLoop, hi]
  | succ n ih =>
    intro i fuel hn hfuel
    obtain ⟨f, rfl⟩ : ∃ f, fuel = f + 1 := ⟨fuel - 1, by omega⟩
    by_cases hi : i ≤ mx
    · have h1 : (mx - (i + step)).toNat ≤ n := by omega
      have h2 : n + 2 ≤ f := by omega
      have := ih (i + step) f h1 h2
      simp only [sensLoop, hi, if_true]
      simpa using this
    · simp [sensLoop, hi]

theorem sensLoop_eq_progression (mx step : Int) (hstep : 0 < step) :
    ∀ (fuel : Nat) (i : Int) (l : List String), sensLoop fuel mx step i = some l →
      l = (List.range (if i ≤ mx then ((mx - i) / step).toNat + 1 else 0)).map
            (fun k : Nat => toString (i + (k : Int) * step)) := by
  intro fuel
  induction fuel with
  | zero => intro i l h; simp [sensLoop] at h
  | succ f ih =>
    intro i l h
    by_cases hi : i ≤ mx
    · simp only [sensLoop, hi, if_true, Option.map_eq_some'] at h
      obtain ⟨l', hl', rfl⟩ := h
      have hrec := ih (i + step) l' hl'
      rw [if_pos hi]
      by_cases hnext : i + step ≤ mx
      · rw [if_pos hnext] at hrec
        have hdiv : (mx - i) / step = (mx - (i + step)) / step + 1 := by
          have harith : mx - i = (mx - (i + step)) + 1 * step := by ring
          rw [harith, Int.add_mul_ediv_right _ _ (by omega)]
        have hnn : 0 ≤ (mx - (i + step)) / step :=
          Int.ediv_nonneg (by omega) (by omega)
        have htn : ((mx - i) / step).toNat + 1 = (((mx - (i + step)) / step).toNat + 1) + 1 := by
          omega
        rw [htn, List.range_succ_eq_map, List.map_cons]
        congr 1
        · congr 1
          push_cast
          ring
        · rw [hrec, List.map_map]
          apply List.map_congr_left
          intro k _
          simp only [Function.comp_apply]
          congr 1
          push_cast
          ring
      · rw [if_neg hnext] at hrec
        have hz : (mx - i) / step = 0 := by
          apply Int.ediv_eq_zero_of_lt (by omega) (by omega)
        rw [hrec, hz]
        simp [List.range_succ]
    · simp only [sensLoop, hi, if_false, ite_false] at h
      rw [if_neg hi]
      simp_all

theorem sensLoop_mem_range (mx step : Int) (hstep : 0 < step) :
    ∀ (fuel : Nat) (i : Int) (l : List String), sensLoop fuel mx step i = some l →
      ∀ s ∈ l, ∃ v : Int, s = toString v ∧ i ≤ v ∧ v ≤ mx := by
  intro fuel
  induction fuel with
  | zero => intro i l h; simp [sensLoop] at h
  | succ f ih =>
    intro i l h s hs
    by_cases hi : i ≤ mx
    · simp only [sensLoop, hi, if_true, Option.map_eq_some'] at h
      obtain ⟨l', hl', rfl⟩ := h
      rcases List.mem_cons.mp hs with rfl | hs'
      · exact ⟨i, rfl, le_refl i, hi⟩
      · obtain ⟨v, rfl, h1, h2⟩ := ih (i + step) l' hl' s hs'
        exact ⟨v, rfl, by omega, h2⟩
    · simp only [sensLoop, hi, if_false, ite_false] at h
      simp_all

/-- The literal `p` matches at the head of `s`. -/
def headMatch : List Char → List Char → Bool
  | [], _ => true
  | _ :: _, [] => false
  | p :: ps, c :: cs => p == c && headMatch ps cs

/-- Index of the leftmost position of `s` where the literal `p`
matches: the left-to-right scan a backtracking regex engine performs
for a literal sub-pattern. -/
def findSub (p : List Char) : List Char → Option Nat
  | [] => if headMatch p [] then some 0 else none
  | c :: cs => if headMatch p (c :: cs) then some 0 else (findSub p cs).map (· + 1)

/-- Length of the longest prefix of `s` without `'>'`: the greedy
`[^>]*`. -/
def countNonGt : List Char → Nat
  | [] => 0
  | c :: cs => if c == '>' then 0 else countNonGt cs + 1

/-- Length of the match of the regex `opn[^>]*>.*?cls` (with the `s`
flag, lazy middle) anchored at the head of `s`; `none` when it does
not match there. -/
def matchTagAt (opn cls s : List Char) : Option Nat :=
  if headMatch opn s then
    match (s.drop opn.length).drop (countNonGt (s.drop opn.length)) with
    | '>' :: rest2 =>
      (findSub cls rest2).map
        (fun j => opn.length + countNonGt (s.drop opn.length) + 1 + j + cls.length)
    | _ => none
  else none

/-- JS `String.replace` with the non-global regex `opn[^>]*>.*?cls`:
the leftmost match is replaced by `repl`; a string without a match is
returned unchanged. -/
def replaceFirstTag (opn cls repl : List Char) : List Char → List Char
  | [] => []
  | c :: cs =>
    match matchTagAt opn cls (c :: cs) with
    | some m => repl ++ (c :: cs).drop m
    | none => c :: replaceFirstTag opn cls repl cs

theorem headMatch_append_self (p r : List Char) : headMatch p (p ++ r) = true := by
  induction p with
  | nil => rfl
  | cons c cs ih => simp [headMatch, ih]

theorem countNonGt_append_gt (a r : List Char) (ha : '>' ∉ a) :
    countNonGt (a ++ '>' :: r) = a.length := by
  induction a with
  | nil => simp [countNonGt]
  | cons c cs ih =>
    have hc : (c == '>') = false :=
      beq_eq_false_iff_ne.mpr (fun h => ha (h ▸ List.mem_cons_self c cs))
    have ih2 := ih (fun h => ha (List.mem_cons_of_mem _ h))
    simp only [List.cons_append, countNonGt, hc, if_false, List.length_cons]
    exact congrArg (fun n => n + 1) ih2

theorem matchTagAt_decomp (opn cls attrs val post : List Char)
    (hattrs : '>' ∉ attrs)
    (hfind : findSub cls (val ++ (cls ++ post)) = some val.length) :
    matchTagAt opn cls (opn ++ (attrs ++ ('>' :: (val ++ (cls ++ post)))))
      = some (opn.length + attrs.length + 1 + val.length + cls.length) := by
  have h2 : List.drop opn.length (opn ++ (attrs ++ ('>' :: (val ++ (cls ++ post)))))
      = attrs ++ ('>' :: (val ++ (cls ++ post))) := List.drop_left _ _
  have h3 : countNonGt (attrs ++ '>' :: (val ++ (cls ++ post))) = attrs.length :=
    countNonGt_append_gt _ _ hattrs
  have h4 : List.drop attrs.length (attrs ++ '>' :: (val ++ (cls ++ post)))
      = '>' :: (val ++ (cls ++ post)) := List.drop_left _ _
  unfold matchTagAt
  rw [headMatch_append_self, if_pos rfl, h2, h3, h4]
  show (findSub cls (val ++ (cls ++ post))).map
      (fun j => opn.length + attrs.length + 1 + j + cls.length)
      = some (opn.length + attrs.length + 1 + val.length + cls.length)
  rw [hfind]
  rfl

theorem replaceFirstTag_decomp (opn cls repl : List Char) (hopn : opn ≠ [])
    (pre attrs val post : List Char)
    (hpre : ∀ i < pre.length,
      headMatch opn ((pre ++ (opn ++ (attrs ++ ('>' :: (val ++ (cls ++ post)))))).drop i) = false)
    (hattrs : '>' ∉ attrs)
    (hfind : findSub cls (val ++ (cls ++ post)) = some val.length) :
    replaceFirstTag opn cls repl (pre ++ (opn ++ (attrs ++ ('>' :: (val ++ (cls ++ post))))))
      = pre ++ (repl ++ post) := by
  induction pre with
  | nil =>
    obtain ⟨o, os, rfl⟩ : ∃ o os, opn = o :: os := by
      cases opn with
      | nil => exact absurd rfl hopn
      | cons o os => exact ⟨o, os, rfl⟩
    have hm : matchTagAt (o :: os) cls
        (o :: (os ++ (attrs ++ ('>' :: (val ++ (cls ++ post))))))
        = some ((o :: os).length + attrs.length + 1 + val.length + cls.length) :=
      matchTagAt_decomp (o :: os) cls attrs val post hattrs hfind
    have hlen : ((o :: os) ++ (attrs ++ ('>' :: (val ++ cls)))).length
        = (o :: os).length + attrs.length + 1 + val.length + cls.length := by
      simp only [List.length_append, List.length_cons]
      omega
    have hsplit : o :: (os ++ (attrs ++ ('>' :: (val ++ (cls ++ post)))))
        = ((o :: os) ++ (attrs ++ ('>' :: (val ++ cls)))) ++ post := by
      simp [List.append_assoc]
    show replaceFirstTag (o :: os) cls repl
        (o :: (os ++ (attrs ++ ('>' :: (val ++ (cls ++ post)))))) = repl ++ post
    simp only [replaceFirstTag]
    rw [hm]
    show repl ++ List.drop ((o :: os).length + attrs.length + 1 + val.length + cls.length)
        (o :: (os ++ (attrs ++ ('>' :: (val ++ (cls ++ post)))))) = repl ++ post
    rw [hsplit, ← hlen, List.drop_left]
  | cons c cs ih =>
    have h0 := hpre 0 (by simp)
    simp only [List.drop_zero, List.cons_append] at h0
    have hnone : matchTagAt opn cls
        (c :: (cs ++ (opn ++ (attrs ++ ('>' :: (val ++ (cls ++ post))))))) = none := by
      unfold matchTagAt
      rw [h0]
      simp
    have hpre2 : ∀ i < cs.length,
        headMatch opn ((cs ++ (opn ++ (attrs ++ ('>' :: (val ++ (cls ++ post)))))).drop i) = false := by
      intro i hi
      have hstep := hpre (i + 1) (by simp only [List.length_cons]; omega)
      simpa using hstep
    show replaceFirstTag opn cls repl
        (c :: (cs ++ (opn ++ (attrs ++ ('>' :: (val ++ (cls ++ post))))))) = _
    simp only [replaceFirstTag]
    rw [hnone, ih hpre2]
    rfl

/-- JS boolean-to-string template interpolation. -/
def jsBoolString : Bool → String
  | true => "true"
  | false => "false"

/-- Literal pieces of the `<enabled[^>]*>.*?<\x2fenabled>` regex of
`updateMotionDetection` in `client.ts`. -/
def enabledOpn : List Char := "<enabled".data

/-- Closing literal of the enabled regex. -/
def enabledCls : List Char := "</enabled>".data

/-- Opening literal of the sensitivityLevel regex. -/
def sensOpn : List Char := "<sensitivityLevel".data

/-- Closing literal of the sensitivityLevel regex. -/
def sensCls : List Char := "</sensitivityLevel>".data

/-- The XML body transformation of `updateMotionDetection`: a tag-local
substring replace of the first `<enabled…>…</enabled>` span when
`enabled` is given, then of the first
`<sensitivityLevel…>…</sensitivityLevel>` span when `motionSensitivity`
is given; omitted parameters leave the document untouched. -/
def patchEnabledStage (enabled : Option Bool) (xml : List Char) : List Char :=
  match enabled with
  | some b => replaceFirstTag enabledOpn enabledCls
      ("<enabled>" ++ jsBoolString b ++ "</enabled>").data xml
  | none => xml

/-- The second `if` of `updateMotionDetection`: the sensitivity patch. -/
def patchSensitivityStage (motionSensitivity : Option String) (xml : List Char) : List Char :=
  match motionSensitivity with
  | some v => replaceFirstTag sensOpn sensCls
      ("<sensitivityLevel>" ++ v ++ "</sensitivityLevel>").data xml
  | none => xml

/-- Composition of the two patch stages, in source order. -/
def patchMotionChars (enabled : Option Bool) (motionSensitivity : Option String)
    (xml : List Char) : List Char :=
  patchSensitivityStage motionSensitivity (patchEnabledStage enabled xml)

/-- String-level body patch of `updateMotionDetection`. -/
def patchMotionXml (enabled : Option Bool) (motionSensitivity : Option String)
    (xml : String) : String :=
  String.mk (patchMotionChars enabled motionSensitivity xml.data)

/-- One HTTP request of the Hikvision client. -/
structure HikRequest where
  method : String
  url : String
  body : String
deriving DecidableEq, Repr

/-- The HTTP requests issued by one `updateMotionDetection` call: the
capability GET performed by the embedded `getMotionCapabilities` call
(whose response body is `fetchedXml`), then exactly one PUT carrying
the patched document. -/
def updateMotionDetectionRequests (enabled : Option Bool) (motionSensitivity : Option String)
    (ip channelId fetchedXml : String) : List HikRequest :=
  [ { method := "GET",
      url := "http://" ++ ip ++ "//ISAPI/System/Video/inputs/channels/" ++ channelId
        ++ "/motionDetection/capabilities",
      body := "" },
    { method := "PUT",
      url := "http://" ++ ip ++ "/ISAPI/System/Video/inputs/channels/" ++ channelId
        ++ "/motionDetection",
      body := patchMotionXml enabled motionSensitivity fetchedXml } ]

/-- The full `<enabled …>…</enabled>` span of a motion document. -/
def enabledElem (attrs val : List Char) : List Char :=
  enabledOpn ++ (attrs ++ ('>' :: (val ++ enabledCls)))

/-- The full `<sensitivityLevel …>…</sensitivityLevel>` span. -/
def sensElem (attrs val : List Char) : List Char :=
  sensOpn ++ (attrs ++ ('>' :: (val ++ sensCls)))

/-- A motion-detection document decomposed around its `<enabled>` and
`<sensitivityLevel>` elements: arbitrary content `A` (for example an
unknown vendor element), the enabled element, arbitrary content `B`,
the sensitivity element, arbitrary content `C`. -/
def motionDoc (A eAttrs eVal B sAttrs sVal C : List Char) : List Char :=
  A ++ (enabledOpn ++ (eAttrs ++ ('>' ::
    (eVal ++ (enabledCls ++ (B ++ (sensElem sAttrs sVal ++ C)))))))

/-- The enabled span after the patch: rebuilt as
`<enabled>value</enabled>` (attributes dropped) when a target value is
given, untouched otherwise. -/
def newEnabled (eo : Option Bool) (attrs val : List Char) : List Char :=
  match eo with
  | some b => ("<enabled>" ++ jsBoolString b ++ "</enabled>").data
  | none => enabledElem attrs val

/-- The sensitivity span after the patch. -/
def newSens (so : Option String) (attrs val : List Char) : List Char :=
  match so with
  | some v => ("<sensitivityLevel>" ++ v ++ "</sensitivityLevel>").data
  | none => sensElem attrs val

/-- C1: `updateMotionDetection` patching enabled and/or
sensitivityLevel changes only the targeted spans: for any document
decomposed as `A ++ <enabled…> ++ B ++ <sensitivityLevel…> ++ C` where
the tag patterns match nowhere earlier, the patched document is
`A ++ E' ++ B ++ S' ++ C` with `A`, `B`, `C` byte-identical and only the
targeted spans `E'`/`S'` rewritten; in particular patching
`enabled → true` flips only the `<enabled>` element and leaves an
unknown vendor element in `A` byte-identical. -/
theorem updateMotionDetection_patch_frame
    (eo : Option Bool) (so : Option String)
    (A eAttrs eVal B sAttrs sVal C : List Char)
    (heA : ∀ i < A.length,
      headMatch enabledOpn ((motionDoc A eAttrs eVal B sAttrs sVal C).drop i) = false)
    (heAttrs : '>' ∉ eAttrs)
    (heFind : findSub enabledCls
      (eVal ++ (enabledCls ++ (B ++ (sensElem sAttrs sVal ++ C)))) = some eVal.length)
    (hsA : ∀ i < (A ++ (newEnabled eo eAttrs eVal ++ B)).length,
      headMatch sensOpn
        ((A ++ (newEnabled eo eAttrs eVal ++ (B ++ (sensElem sAttrs sVal ++ C)))).drop i) = false)
    (hsAttrs : '>' ∉ sAttrs)
    (hsFind : findSub sensCls (sVal ++ (sensCls ++ C)) = some sVal.length) :
    patchMotionChars eo so (motionDoc A eAttrs eVal B sAttrs sVal C)
      = A ++ (newEnabled eo eAttrs eVal ++ (B ++ (newSens so sAttrs sVal ++ C))) := by
  have hmid : patchEnabledStage eo (motionDoc A eAttrs eVal B sAttrs sVal C)
      = A ++ (newEnabled eo eAttrs eVal ++ (B ++ (sensElem sAttrs sVal ++ C))) := by
    clear hsA
    cases eo with
    | none =>
      simp [patchEnabledStage, motionDoc, newEnabled, enabledElem, List.append_assoc]
    | some b =>
      have hrep := replaceFirstTag_decomp enabledOpn enabledCls
        ("<enabled>" ++ jsBoolString b ++ "</enabled>").data (by decide)
        A eAttrs eVal (B ++ (sensElem sAttrs sVal ++ C)) heA heAttrs heFind
      simpa [patchEnabledStage, motionDoc, newEnabled] using hrep
  cases so with
  | none =>
    simp only [patchMotionChars, patchSensitivityStage, newSens]
    exact hmid
  | some v =>
    have hmid2 : A ++ (newEnabled eo eAttrs eVal ++ (B ++ (sensElem sAttrs sVal ++ C)))
        = (A ++ (newEnabled eo eAttrs eVal ++ B))
          ++ (sensOpn ++ (sAttrs ++ ('>' :: (sVal ++ (sensCls ++ C))))) := by
      simp [sensElem, List.append_assoc]
    rw [hmid2] at hsA
    have hrep := replaceFirstTag_decomp sensOpn sensCls
      ("<sensitivityLevel>" ++ v ++ "</sensitivityLevel>").data (by decide)
      (A ++ (newEnabled eo eAttrs eVal ++ B)) sAttrs sVal C hsA hsAttrs hsFind
    simp only [patchMotionChars, patchSensitivityStage]
    rw [hmid, hmid2, hrep]
    simp [newSens, List.append_assoc]

/-- Witness for C1: a concrete document with an unknown vendor element
alongside `<enabled>false</enabled>`; patching `enabled → true` flips
only the enabled element. -/
theorem updateMotionDetection_patch_frame_witness :
    patchMotionChars (some true) none
      (motionDoc "<MotionDetection><vendorX ext=\"a\">keep</vendorX>".data [] "false".data
        "<samplingInterval>2</samplingInterval>".data [] "20".data "</MotionDetection>".data)
      = "<MotionDetection><vendorX ext=\"a\">keep</vendorX>".data
        ++ (newEnabled (some true) [] "false".data
        ++ ("<samplingInterval>2</samplingInterval>".data
        ++ (newSens none [] "20".data ++ "</MotionDetection>".data))) :=
  updateMotionDetection_patch_frame (some true) none
    "<MotionDetection><vendorX ext=\"a\">keep</vendorX>".data [] "false".data
    "<samplingInterval>2</samplingInterval>".data [] "20".data "</MotionDetection>".data
    (by decide) (by decide) (by decide) (by decide) (by decide) (by decide)

theorem sensLoop_step_zero (mx : Int) :
    ∀ (fuel : Nat) (i : Int), i ≤ mx → sensLoop fuel mx 0 i = none := by
  intro fuel
  induction fuel with
  | zero => intro i _; rfl
  | succ f ih =>
    intro i hi
    have hrec := ih i hi
    simp [sensLoop, hi, hrec]

/-- C10: the sensitivity option loop of `getMotionCapabilities`
terminates for every parsed (min, max, step) with step > 0, and every
generated option other than the leading min renders a value in
(min, max]; for step = 0 with min < max no amount of fuel completes the
loop, so step > 0 is a necessary precondition for totality. -/
theorem sensitivityOptions_termination (mn mx step : Int) :
    (0 < step → ∃ fuel, (sensitivityOptions fuel mn mx step).isSome)
    ∧ (0 < step → ∀ (fuel : Nat) (l : List String),
        sensitivityOptions fuel mn mx step = some l →
          ∀ s ∈ l.tail, ∃ v : Int, s = toString v ∧ mn < v ∧ v ≤ mx)
    ∧ (step = 0 → mn < mx → ∀ fuel : Nat, sensitivityOptions fuel mn mx step = none) := by
  refine ⟨?_, ?_, ?_⟩
  · intro hstep
    refine ⟨(mx - (mn + step)).toNat + 2, ?_⟩
    have h := sensLoop_isSome mx step hstep (mx - (mn + step)).toNat (mn + step)
      ((mx - (mn + step)).toNat + 2) (le_refl _) (le_refl _)
    unfold sensitivityOptions
    simpa using h
  · intro hstep fuel l hrun s hs
    unfold sensitivityOptions at hrun
    rw [Option.map_eq_some'] at hrun
    obtain ⟨l', hl', rfl⟩ := hrun
    simp only [List.tail_cons] at hs
    obtain ⟨v, rfl, h1, h2⟩ := sensLoop_mem_range mx step hstep fuel (mn + step) l' hl' s hs
    exact ⟨v, rfl, by omega, h2⟩
  · intro hstep hlt fuel
    subst hstep
    unfold sensitivityOptions
    rw [sensLoop_step_zero mx fuel (mn + 0) (by omega)]
    rfl

/-- Witness for C10 at (0, 100, 20) for the positive-step parts and
(0, 5, 0) for the divergence part. -/
theorem sensitivityOptions_termination_witness :
    (∃ fuel, (sensitivityOptions fuel 0 100 20).isSome)
    ∧ sensitivityOptions 7 0 5 0 = none :=
  ⟨(sensitivityOptions_termination 0 100 20).1 (by decide),
   (sensitivityOptions_termination 0 5 0).2.2 rfl (by decide) 7⟩

/-- C2: with capability min=0, max=100, step=20 the derived choice list
is exactly ["0","20","40","60","80","100"]; in general for parsed
(min, max, step) with step > 0 the choices are min, min+step, … up to
max (min always included, max included only when it lands on a step);
and setting the sensitivity to "60" issues exactly one PUT whose body
carries the document with the sensitivityLevel span rewritten to 60. -/
theorem motionSensitivity_choices_and_put
    (mn mx step : Int) (fuel : Nat) (l : List String) (hstep : 0 < step)
    (hrun : sensitivityOptions fuel mn mx step = some l)
    (pre sAttrs sVal post : List Char) (ip ch : String)
    (hsA : ∀ i < pre.length,
      headMatch sensOpn
        ((pre ++ (sensOpn ++ (sAttrs ++ ('>' :: (sVal ++ (sensCls ++ post)))))).drop i) = false)
    (hsAttrs : '>' ∉ sAttrs)
    (hsFind : findSub sensCls (sVal ++ (sensCls ++ post)) = some sVal.length) :
    sensitivityOptions 10 0 100 20 = some ["0", "20", "40", "60", "80", "100"]
    ∧ l = (List.range (((mx - mn) / step).toNat + 1)).map
        (fun k : Nat => toString (mn + (k : Int) * step))
    ∧ ((updateMotionDetectionRequests none (some "60") ip ch
          (String.mk (pre ++ (sensOpn ++ (sAttrs ++ ('>' :: (sVal ++ (sensCls ++ post)))))))).filter
        (fun r => r.method == "PUT")).length = 1
    ∧ ∀ r ∈ updateMotionDetectionRequests none (some "60") ip ch
          (String.mk (pre ++ (sensOpn ++ (sAttrs ++ ('>' :: (sVal ++ (sensCls ++ post))))))),
        r.method = "PUT" →
          r.body = String.mk (pre ++ ("<sensitivityLevel>60</sensitivityLevel>".data ++ post)) := by
  have hbody : patchMotionChars none (some "60")
      (pre ++ (sensOpn ++ (sAttrs ++ ('>' :: (sVal ++ (sensCls ++ post))))))
      = pre ++ ("<sensitivityLevel>60</sensitivityLevel>".data ++ post) := by
    have hrep := replaceFirstTag_decomp sensOpn sensCls
      ("<sensitivityLevel>" ++ "60" ++ "</sensitivityLevel>").data (by decide)
      pre sAttrs sVal post hsA hsAttrs hsFind
    simpa [patchMotionChars, patchEnabledStage, patchSensitivityStage] using hrep
  refine ⟨by decide, ?_, ?_, ?_⟩
  · unfold sensitivityOptions at hrun
    rw [Option.map_eq_some'] at hrun
    obtain ⟨l', hl', rfl⟩ := hrun
    have hchar := sensLoop_eq_progression mx step hstep fuel (mn + step) l' hl'
    by_cases hnext : mn + step ≤ mx
    · rw [if_pos hnext] at hchar
      have hdiv : (mx - mn) / step = (mx - (mn + step)) / step + 1 := by
        have harith : mx - mn = (mx - (mn + step)) + 1 * step := by ring
        rw [harith, Int.add_mul_ediv_right _ _ (by omega)]
      have hnn : 0 ≤ (mx - (mn + step)) / step :=
        Int.ediv_nonneg (by omega) (by omega)
      have htn : ((mx - mn) / step).toNat + 1 = (((mx - (mn + step)) / step).toNat + 1) + 1 := by
        omega
      rw [htn, List.range_succ_eq_map, List.map_cons]
      congr 1
      · congr 1
        push_cast
        ring
      · rw [hchar, List.map_map]
        apply List.map_congr_left
        intro k _
        simp only [Function.comp_apply]
        congr 1
        push_cast
        ring
    · rw [if_neg hnext] at hchar
      have hz : ((mx - mn) / step).toNat = 0 := by
        by_cases hmm : mn ≤ mx
        · have : (mx - mn) / step = 0 := Int.ediv_eq_zero_of_lt (by omega) (by omega)
          omega
        · have : (mx - mn) / step < 0 := Int.ediv_neg' (by omega) hstep
          omega
      rw [hchar, hz]
      simp [List.range_succ]
  · have h1 : (("GET" : String) == "PUT") = false := by decide
    have h2 : (("PUT" : String) == "PUT") = true := by decide
    simp [updateMotionDetectionRequests, List.filter, h1, h2]
  · intro r hr hput
    simp only [updateMotionDetectionRequests, List.mem_cons, List.mem_singleton] at hr
    rcases hr with rfl | rfl | h
    · have hne : ("GET" : String) ≠ "PUT" := by decide
      exact absurd hput hne
    · show patchMotionXml none (some "60")
          (String.mk (pre ++ (sensOpn ++ (sAttrs ++ ('>' :: (sVal ++ (sensCls ++ post))))))) = _
      unfold patchMotionXml
      rw [show (String.mk (pre ++ (sensOpn ++ (sAttrs ++ ('>' :: (sVal ++ (sensCls ++ post))))))).data
          = pre ++ (sensOpn ++ (sAttrs ++ ('>' :: (sVal ++ (sensCls ++ post))))) from rfl, hbody]
    · exact absurd h (List.not_mem_nil r)

/-- Witness for C2: min=0, max=100, step=20, fuel 10, a concrete
document, and the progression equality instantiated there. -/
theorem motionSensitivity_choices_and_put_witness :
    (0 : Int) < 20
    ∧ (["0", "20", "40", "60", "80", "100"] : List String)
      = (List.range ((((100 : Int) - 0) / 20).toNat + 1)).map
          (fun k : Nat => toString ((0 : Int) + (k : Int) * 20)) :=
  ⟨by decide,
   (motionSensitivity_choices_and_put 0 100 20 10 ["0", "20", "40", "60", "80", "100"]
      (by decide) (by decide)
      "<MotionDetection><enabled>true</enabled>".data [] "20".data "</MotionDetection>".data
      "127.0.0.1" "1" (by decide) (by decide) (by decide)).2.1⟩

/-- The fixed DST rule suffix used by the mixin's timezone handlers in
`cameraMixin.ts`. -/
def dstSuffix : String := "DST01:00:00,M3.5.0/02:00:00,M10.5.0/03:00:00"

/-- Greedy run of decimal digits at the head of a character list:
(digits, rest). -/
def digitRun : List Char → List Char × List Char
  | [] => ([], [])
  | c :: cs =>
    if '0' ≤ c ∧ c ≤ '9' then
      let (d, r) := digitRun cs
      (c :: d, r)
    else ([], c :: cs)

/-- Match of the regex sign-and-hours part `([+-])(\\d+):00:00`
anchored at the head. -/
def matchSignAt : List Char → Option (Char × List Char)
  | [] => none
  | c :: rest =>
    if c = '+' ∨ c = '-' then
      if (digitRun rest).1 = [] then none
      else if headMatch ":00:00".data (digitRun rest).2 then some (c, (digitRun rest).1)
      else none
    else none

/-- Match of the regex `lead([+-])(\\d+):00:00` anchored at the head of
`s`: the sign character and the digit run. -/
def matchTzAt (lead : List Char) (s : List Char) : Option (Char × List Char) :=
  if headMatch lead s then matchSignAt (s.drop lead.length) else none

/-- Leftmost match of `lead([+-])(\\d+):00:00` over `s`
(JS `String.prototype.match` without the `g` flag). -/
def findTzMatch (lead : List Char) : List Char → Option (Char × List Char)
  | [] => matchTzAt lead []
  | c :: cs =>
    match matchTzAt lead (c :: cs) with
    | some r => some r
    | none => findTzMatch lead cs

/-- The `timeZone` onPut handler of `generateTimeSettings`: converts
the human `UTC±H:00:00` choice to the wire `CST∓H:00:00` (sign
inverted), appending the DST suffix when daylight saving is enabled;
`none` models a non-matching value, for which no update is issued. -/
def humanToWire (value : String) (dst : Bool) : Option String :=
  match findTzMatch "UTC".data value.data with
  | some (sign, hours) =>
    let wireSign := if sign = '+' then "-" else "+"
    let base := "CST" ++ wireSign ++ String.mk hours ++ ":00:00"
    some (if dst then base ++ dstSuffix else base)
  | none => none

/-- The part of `s` before the first occurrence of the literal `lit`
(JS `s.split(lit)[0]`). -/
def takeBeforeLit (lit : List Char) : List Char → List Char
  | [] => []
  | c :: cs => if headMatch lit (c :: cs) then [] else c :: takeBeforeLit lit cs

/-- The timezone read-back of `setTimeSettingsValues`: strips the DST
part, matches `CST([+-])(\\d+):00:00` and renders `UTC` with the sign
inverted; `none` when the device timezone does not match (the stored
value is left unchanged). -/
def wireToHuman (tz : String) : Option String :=
  match findTzMatch "CST".data (takeBeforeLit "DST".data tz.data) with
  | some (sign, hours) =>
    let humanSign := if sign = '-' then "+" else "-"
    some ("UTC" ++ humanSign ++ String.mk hours ++ ":00:00")
  | none => none

/-- Storage-level state touched by the `daylightSaving` toggle: the
stored human timezone choice, the stored DST flag, and the timezone
last written to the device (`none` before any write). -/
structure TimeSettingsState where
  humanTz : String
  dst : Bool
  deviceTz : Option String
deriving DecidableEq, Repr

/-- The `daylightSaving` onPut handler of `generateTimeSettings`: a
change of the flag rebuilds the wire timezone from the stored human
timezone and writes it; re-putting an unchanged flag is a no-op (the
`old !== value` guard). -/
def putDaylightSaving (value : Bool) (st : TimeSettingsState) : TimeSettingsState :=
  let st1 : TimeSettingsState := { st with dst := value }
  if st.dst ≠ value then
    match humanToWire st.humanTz value with
    | some w => { st1 with deviceTz := some w }
    | none => st1
  else st1

/-- Number of positions of `s` where the literal `p` occurs. -/
def countOccur (p : List Char) : List Char → Nat
  | [] => if headMatch p [] then 1 else 0
  | c :: cs => (if headMatch p (c :: cs) then 1 else 0) + countOccur p cs

theorem countOccur_append_of_no_head (p' a b : List Char)
    (ha : ∀ c ∈ a, c ≠ 'D') :
    countOccur ('D' :: p') (a ++ b) = countOccur ('D' :: p') b := by
  induction a with
  | nil => rfl
  | cons c cs ih =>
    have hc : ('D' == c) = false :=
      beq_eq_false_iff_ne.mpr (Ne.symm (ha c (List.mem_cons_self c cs)))
    simp only [List.cons_append, countOccur, headMatch, hc, Bool.false_and]
    rw [if_neg (by simp), Nat.zero_add]
    exact ih (fun x hx => ha x (List.mem_cons_of_mem _ hx))

theorem digitRun_digits : ∀ s : List Char, ∀ c ∈ (digitRun s).1, '0' ≤ c ∧ c ≤ '9' := by
  intro s
  induction s with
  | nil => intro c hc; simp [digitRun] at hc
  | cons x xs ih =>
    intro c hc
    by_cases hx : '0' ≤ x ∧ x ≤ '9'
    · simp only [digitRun, hx, if_true] at hc
      rcases List.mem_cons.mp hc with rfl | hc2
      · exact hx
      · exact ih c hc2
    · simp only [digitRun, hx, if_false] at hc
      exact absurd hc (List.not_mem_nil c)

theorem matchSignAt_digits (s : List Char) (sign : Char) (hours : List Char)
    (h : matchSignAt s = some (sign, hours)) : ∀ c ∈ hours, '0' ≤ c ∧ c ≤ '9' := by
  cases s with
  | nil => exact absurd h (by simp [matchSignAt])
  | cons c rest =>
    replace h : (if c = '+' ∨ c = '-' then
        if (digitRun rest).1 = [] then none
        else if headMatch ":00:00".data (digitRun rest).2 then some (c, (digitRun rest).1)
        else none
      else none) = some (sign, hours) := h
    by_cases hsign : c = '+' ∨ c = '-'
    · rw [if_pos hsign] at h
      by_cases hds : (digitRun rest).1 = []
      · rw [if_pos hds] at h
        exact absurd h (by simp)
      · rw [if_neg hds] at h
        by_cases hcol : headMatch ":00:00".data (digitRun rest).2
        · rw [if_pos hcol] at h
          obtain ⟨rfl, rfl⟩ : c = sign ∧ (digitRun rest).1 = hours := by
            have hinj := Option.some.inj h
            exact ⟨congrArg Prod.fst hinj, congrArg Prod.snd hinj⟩
          exact digitRun_digits rest
        · rw [if_neg hcol] at h
          exact absurd h (by simp)
    · rw [if_neg hsign] at h
      exact absurd h (by simp)

theorem matchTzAt_digits (lead s : List Char) (sign : Char) (hours : List Char)
    (h : matchTzAt lead s = some (sign, hours)) : ∀ c ∈ hours, '0' ≤ c ∧ c ≤ '9' := by
  unfold matchTzAt at h
  by_cases hm : headMatch lead s
  · rw [if_pos hm] at h
    exact matchSignAt_digits _ sign hours h
  · rw [if_neg hm] at h
    exact absurd h (by simp)

theorem findTzMatch_digits (lead : List Char) :
    ∀ (s : List Char) (sign : Char) (hours : List Char),
      findTzMatch lead s = some (sign, hours) → ∀ c ∈ hours, '0' ≤ c ∧ c ≤ '9' := by
  intro s
  induction s with
  | nil => intro sign hours h; exact matchTzAt_digits lead [] sign hours h
  | cons c cs ih =>
    intro sign hours h
    unfold findTzMatch at h
    cases hm : matchTzAt lead (c :: cs) with
    | some r =>
      rw [hm] at h
      cases h
      exact matchTzAt_digits lead (c :: cs) sign hours hm
    | none =>
      rw [hm] at h
      exact ih sign hours h

theorem putDaylightSaving_dst (v : Bool) (st : TimeSettingsState) :
    (putDaylightSaving v st).dst = v := by
  unfold putDaylightSaving
  by_cases h : st.dst ≠ v
  · rw [if_pos h]
    cases humanToWire st.humanTz v <;> rfl
  · rw [if_neg h]

/-- C7: the timezone transcode inverts the sign exactly once in each
direction: the round trip on "UTC+2:00:00" with DST off returns
"UTC+2:00:00"; enabling DST produces a wire value in which the DST
suffix occurs exactly once; and repeated enable calls of the
daylight-saving handler are idempotent. -/
theorem timezone_roundtrip_and_dst
    (h w : String) (hw : humanToWire h true = some w) (st : TimeSettingsState) :
    (humanToWire "UTC+2:00:00" false).bind wireToHuman = some "UTC+2:00:00"
    ∧ countOccur "DST".data w.data = 1
    ∧ putDaylightSaving true (putDaylightSaving true st) = putDaylightSaving true st := by
  refine ⟨by decide, ?_, ?_⟩
  · unfold humanToWire at hw
    cases hfind : findTzMatch "UTC".data h.data with
    | none => rw [hfind] at hw; exact absurd hw (by simp)
    | some r =>
      obtain ⟨sign, hours⟩ := r
      rw [hfind] at hw
      have hw2 : some ("CST" ++ (if sign = '+' then "-" else "+") ++ String.mk hours
          ++ ":00:00" ++ dstSuffix) = some w := hw
      obtain rfl := Option.some.inj hw2
      have hdig := findTzMatch_digits "UTC".data h.data sign hours hfind
      have hbase : ∀ c ∈ ("CST" ++ (if sign = '+' then "-" else "+")
          ++ String.mk hours ++ ":00:00" : String).data, c ≠ 'D' := by
        intro c hc
        simp only [String.data_append] at hc
        rcases List.mem_append.mp hc with hc1 | hc2
        · rcases List.mem_append.mp hc1 with hc3 | hc4
          · rcases List.mem_append.mp hc3 with hc5 | hc6
            · intro hd
              rw [hd] at hc5
              revert hc5
              decide
            · by_cases hsign : sign = '+'
              · rw [if_pos hsign] at hc6
                intro hd; rw [hd] at hc6; revert hc6; decide
              · rw [if_neg hsign] at hc6
                intro hd; rw [hd] at hc6; revert hc6; decide
          · have hdc := hdig c hc4
            intro hd
            rw [hd] at hdc
            exact absurd hdc.2 (by decide)
        · intro hd
          rw [hd] at hc2
          revert hc2
          decide
      show countOccur ('D' :: "ST".data)
        (("CST" ++ (if sign = '+' then "-" else "+") ++ String.mk hours
          ++ ":00:00" ++ dstSuffix) : String).data = 1
      rw [show (("CST" ++ (if sign = '+' then "-" else "+") ++ String.mk hours
          ++ ":00:00" ++ dstSuffix) : String).data
          = ("CST" ++ (if sign = '+' then "-" else "+") ++ String.mk hours
          ++ ":00:00" : String).data ++ dstSuffix.data from String.data_append .. ]
      rw [countOccur_append_of_no_head _ _ _ hbase]
      decide
  · have h1 := putDaylightSaving_dst true st
    generalize hX : putDaylightSaving true st = X at h1 ⊢
    cases X with
    | mk a b c =>
      simp only at h1
      subst h1
      simp [putDaylightSaving]

/-- Witness for C7 at h = "UTC+2:00:00" and an initial state with DST
off. -/
theorem timezone_roundtrip_and_dst_witness :
    (humanToWire "UTC+2:00:00" false).bind wireToHuman = some "UTC+2:00:00"
    ∧ countOccur "DST".data
        ("CST-2:00:00DST01:00:00,M3.5.0/02:00:00,M10.5.0/03:00:00" : String).data = 1
    ∧ putDaylightSaving true (putDaylightSaving true ⟨"UTC+2:00:00", false, none⟩)
        = putDaylightSaving true ⟨"UTC+2:00:00", false, none⟩ :=
  timezone_roundtrip_and_dst "UTC+2:00:00"
    "CST-2:00:00DST01:00:00,M3.5.0/02:00:00,M10.5.0/03:00:00"
    (by decide) ⟨"UTC+2:00:00", false, none⟩

/-- The overlay types of `utils.ts`. -/
inductive OverlayType
  | Text
  | Device
  | FaceDetection
deriving DecidableEq, Repr

/-- The listener types of `utils.ts`. -/
inductive ListenerType
  | Face
  | Humidity
  | Temperature
deriving DecidableEq, Repr

/-- One overlay slot's persisted binding configuration (the storage
keys `overlay:<id>:type` and `overlay:<id>:device`). -/
structure OverlayConfig where
  type : OverlayType
  device : Option String
deriving DecidableEq, Repr

/-- A device as visible through the system manager: which sensor
interfaces it implements. -/
structure RegDevice where
  hasThermometer : Bool
  hasHumidity : Bool
deriving DecidableEq, Repr

/-- One entry of the `currentListeners` map of `listenersIntevalFn`:
the listener type, the stored source device id, and the subscription
handle. -/
structure ListenerEntry where
  listenerType : ListenerType
  device : Option String
  handle : Nat
deriving DecidableEq, Repr

/-- The engine state mutated by `listenersIntevalFn`: the per-slot
`currentListeners` map, the set of live subscriptions (slot id paired
with subscription handle), and a fresh-handle counter. -/
structure ListenerEngine where
  listeners : List (String × ListenerEntry)
  live : List (String × Nat)
  nextHandle : Nat
deriving DecidableEq, Repr

/-- The binding the loop body of `listenersIntevalFn` resolves for one
slot: listener type and device id to listen on, or `none` when no
listener is wanted (Text slot, unresolvable device, or a device with
neither sensor interface). -/
def desiredBinding (registry : String → Option RegDevice) (selfId : String)
    (ov : OverlayConfig) : Option (ListenerType × String) :=
  match ov.type with
  | OverlayType.Device =>
    match ov.device with
    | some d =>
      match registry d with
      | some dev =>
        if dev.hasThermometer then some (ListenerType.Temperature, d)
        else if dev.hasHumidity then some (ListenerType.Humidity, d)
        else none
      | none => none
    | none => none
  | OverlayType.FaceDetection => some (ListenerType.Face, selfId)
  | OverlayType.Text => none

/-- Map update `currentListeners[overlayId] = …`. -/
def updateEntry (l : List (String × ListenerEntry)) (k : String) (e : ListenerEntry) :
    List (String × ListenerEntry) :=
  (k, e) :: l.filter (fun p => ¬ p.1 = k)

/-- The `differentType || differentDevice` guard of the loop body. -/
def shouldReplace (cur : Option ListenerEntry) (ovType : OverlayType)
    (ovDevice : Option String) (lt : ListenerType) : Bool :=
  (match cur with
   | none => true
   | some e => e.listenerType != lt)
  || (match ovType with
      | OverlayType.Device =>
        (match cur with | some e => e.device | none => none) != ovDevice
      | _ => false)

/-- The replacement arm of the loop body: the old subscription (if any)
is cancelled — removed from the live set — and then the fresh
subscription is created, added to the live set, and stored in the map. -/
def applyReplace (slotId : String) (lt : ListenerType) (ovDevice : Option String)
    (st : ListenerEngine) : ListenerEngine :=
  { listeners := updateEntry st.listeners slotId ⟨lt, ovDevice, st.nextHandle⟩,
    live := (match st.listeners.lookup slotId with
      | some e => st.live.filter (fun p => ¬ (p.1 = slotId ∧ p.2 = e.handle))
      | none => st.live) ++ [(slotId, st.nextHandle)],
    nextHandle := st.nextHandle + 1 }

/-- The loop body of `listenersIntevalFn` for one overlay slot: when a
binding is resolved and differs from the current listener (different
type, or different source device for Device slots), the old
subscription is cancelled before the new one is created and stored;
otherwise the state is untouched. -/
def stepSlot (registry : String → Option RegDevice) (selfId slotId : String)
    (ov : OverlayConfig) (st : ListenerEngine) : ListenerEngine :=
  match desiredBinding registry selfId ov with
  | some r =>
    if shouldReplace (st.listeners.lookup slotId) ov.type ov.device r.1 then
      applyReplace slotId r.1 ov.device st
    else st
  | none => st

/-- One reconciliation pass of `listenersIntevalFn` over the overlay
slots, in order. -/
def runPass (registry : String → Option RegDevice) (selfId : String)
    (slots : List (String × OverlayConfig)) (st : ListenerEngine) : ListenerEngine :=
  slots.foldl (fun acc p => stepSlot registry selfId p.1 p.2 acc) st

/-- The live subscriptions belonging to one slot. -/
def liveFor (st : ListenerEngine) (slotId : String) : List (String × Nat) :=
  st.live.filter (fun p => p.1 = slotId)

/-- Engine well-formedness: each slot's live subscriptions are exactly
the handle recorded in its `currentListeners` entry (so at most one
live subscription per slot), and every live handle is below the fresh
counter. -/
def EngineInv (st : ListenerEngine) : Prop :=
  (∀ slotId : String, liveFor st slotId
    = match st.listeners.lookup slotId with
      | some e => [(slotId, e.handle)]
      | none => [])
  ∧ ∀ p ∈ st.live, p.2 < st.nextHandle

theorem lookup_updateEntry_self (l : List (String × ListenerEntry)) (k : String)
    (e : ListenerEntry) : (updateEntry l k e).lookup k = some e := by
  simp [updateEntry, List.lookup]

theorem lookup_filter_ne (l : List (String × ListenerEntry)) (k s : String) (hs : s ≠ k) :
    (l.filter (fun p => ¬ p.1 = k)).lookup s = l.lookup s := by
  induction l with
  | nil => rfl
  | cons p t ih =>
    obtain ⟨a, b⟩ := p
    by_cases hp : a = k
    · subst hp
      have hsp : (s == a) = false := beq_eq_false_iff_ne.mpr hs
      simp only [List.filter_cons]
      rw [if_neg (by simp)]
      rw [show List.lookup s ((a, b) :: t) = List.lookup s t from by simp [List.lookup, hsp]]
      exact ih
    · simp only [List.filter_cons]
      rw [if_pos (by simp [hp])]
      by_cases hsa : s = a
      · subst hsa
        simp [List.lookup]
      · have hsa2 : (s == a) = false := beq_eq_false_iff_ne.mpr hsa
        simp only [List.lookup, hsa2]
        exact ih

theorem lookup_updateEntry_ne (l : List (String × ListenerEntry)) (k s : String)
    (e : ListenerEntry) (hs : s ≠ k) : (updateEntry l k e).lookup s = l.lookup s := by
  have h1 : (s == k) = false := beq_eq_false_iff_ne.mpr hs
  simp only [updateEntry, List.lookup, h1]
  exact lookup_filter_ne l k s hs

theorem applyReplace_inv (slotId : String) (lt : ListenerType) (ovDevice : Option String)
    (st : ListenerEngine) (h : EngineInv st) :
    EngineInv (applyReplace slotId lt ovDevice st) := by
  obtain ⟨h1, h2⟩ := h
  constructor
  · intro s
    by_cases hs : s = slotId
    · subst hs
      rw [show (applyReplace s lt ovDevice st).listeners.lookup s
          = some ⟨lt, ovDevice, st.nextHandle⟩ from lookup_updateEntry_self ..]
      show ((match st.listeners.lookup s with
        | some e => st.live.filter (fun p => ¬ (p.1 = s ∧ p.2 = e.handle))
        | none => st.live) ++ [(s, st.nextHandle)]).filter (fun p => decide (p.1 = s))
        = [(s, st.nextHandle)]
      rw [List.filter_append]
      have hsingle : ([(s, st.nextHandle)] : List (String × Nat)).filter
          (fun p => decide (p.1 = s)) = [(s, st.nextHandle)] := by simp
      rw [hsingle]
      cases hcur : st.listeners.lookup s with
      | none =>
        have hfe := h1 s
        rw [hcur] at hfe
        rw [show (st.live.filter (fun p => decide (p.1 = s))) = [] from hfe]
        rfl
      | some e =>
        have hfe := h1 s
        rw [hcur] at hfe
        rw [List.filter_filter]
        rw [show st.live.filter
            (fun a => decide (a.1 = s) && decide (¬ (a.1 = s ∧ a.2 = e.handle))) = [] from ?_]
        · rfl
        · rw [List.filter_eq_nil_iff]
          intro a ha
          by_cases has : a.1 = s
          · have hamem : a ∈ liveFor st s := by
              unfold liveFor
              rw [List.mem_filter]
              exact ⟨ha, by simp [has]⟩
            rw [hfe] at hamem
            simp only [List.mem_singleton] at hamem
            subst hamem
            simp
          · simp [has]
    · rw [show (applyReplace slotId lt ovDevice st).listeners.lookup s
          = st.listeners.lookup s from lookup_updateEntry_ne _ _ _ _ hs]
      show ((match st.listeners.lookup slotId with
        | some e => st.live.filter (fun p => ¬ (p.1 = slotId ∧ p.2 = e.handle))
        | none => st.live) ++ [(slotId, st.nextHandle)]).filter (fun p => decide (p.1 = s))
        = _
      rw [List.filter_append]
      have hsingle : ([(slotId, st.nextHandle)] : List (String × Nat)).filter
          (fun p => decide (p.1 = s)) = [] := by
        simp only [List.filter_cons, decide_eq_true_eq]
        rw [if_neg (fun hcontr => hs hcontr.symm)]
        rfl
      rw [hsingle, List.append_nil]
      cases hcur : st.listeners.lookup slotId with
      | none => exact h1 s
      | some e =>
        rw [List.filter_filter]
        have hcongr : st.live.filter
            (fun a => decide (a.1 = s) && decide (¬ (a.1 = slotId ∧ a.2 = e.handle)))
            = st.live.filter (fun a => decide (a.1 = s)) := by
          apply List.filter_congr
          intro a _
          by_cases has : a.1 = s
          · simp [has]
            tauto
          · simp [has]
        rw [hcongr]
        exact h1 s
  · intro p hp
    show p.2 < st.nextHandle + 1
    rcases List.mem_append.mp hp with hp1 | hp2
    · have hmem : p ∈ st.live := by
        cases hcur : st.listeners.lookup slotId with
        | none => rw [hcur] at hp1; exact hp1
        | some e =>
          rw [hcur] at hp1
          exact (List.mem_filter.mp hp1).1
      exact Nat.lt_succ_of_lt (h2 p hmem)
    · simp only [List.mem_singleton] at hp2
      subst hp2
      exact Nat.lt_succ_self _

theorem stepSlot_inv (registry : String → Option RegDevice) (selfId slotId : String)
    (ov : OverlayConfig) (st : ListenerEngine) (h : EngineInv st) :
    EngineInv (stepSlot registry selfId slotId ov st) := by
  unfold stepSlot
  split
  · split
    · exact applyReplace_inv _ _ _ _ h
    · exact h
  · exact h

theorem runPass_inv (registry : String → Option RegDevice) (selfId : String) :
    ∀ (slots : List (String × OverlayConfig)) (st : ListenerEngine),
      EngineInv st → EngineInv (runPass registry selfId slots st) := by
  intro slots
  induction slots with
  | nil => intro st h; exact h
  | cons p t ih =>
    intro st h
    exact ih _ (stepSlot_inv registry selfId p.1 p.2 st h)

/-- C3: at every point during and after a reconciliation pass each
overlay slot owns at most one live subscription; and switching a slot
from DeviceBound(A) to DeviceBound(B) cancels A's subscription before
storing B's, leaving exactly B's new subscription live and A's dead. -/
theorem listener_single_ownership
    (registry : String → Option RegDevice) (selfId : String)
    (slots : List (String × OverlayConfig)) (st : ListenerEngine)
    (hinv : EngineInv st) :
    (∀ n : Nat, EngineInv (runPass registry selfId (slots.take n) st))
    ∧ (∀ slotId : String,
        (liveFor (runPass registry selfId slots st) slotId).length ≤ 1)
    ∧ ∀ (slotId devA devB : String) (e : ListenerEntry) (regB : RegDevice),
        st.listeners.lookup slotId = some e →
        e.device = some devA →
        registry devB = some regB →
        regB.hasThermometer = true →
        devA ≠ devB →
        liveFor (stepSlot registry selfId slotId ⟨OverlayType.Device, some devB⟩ st) slotId
          = [(slotId, st.nextHandle)]
        ∧ (slotId, e.handle)
          ∉ (stepSlot registry selfId slotId ⟨OverlayType.Device, some devB⟩ st).live := by
  refine ⟨fun n => runPass_inv registry selfId (slots.take n) st hinv, ?_, ?_⟩
  · intro slotId
    have h := (runPass_inv registry selfId slots st hinv).1 slotId
    rw [h]
    cases (runPass registry selfId slots st).listeners.lookup slotId <;> simp
  · intro slotId devA devB e regB hlk hdevA hreg hth hne
    have hdes : desiredBinding registry selfId ⟨OverlayType.Device, some devB⟩
        = some (ListenerType.Temperature, devB) := by
      simp [desiredBinding, hreg, hth]
    have hsome : (some devA != some devB) = true := by
      rw [bne_iff_ne]
      intro hcc
      exact hne (Option.some.inj hcc)
    have hshould : shouldReplace (st.listeners.lookup slotId) OverlayType.Device
        (some devB) ListenerType.Temperature = true := by
      rw [hlk]
      show ((e.listenerType != ListenerType.Temperature) || (e.device != some devB)) = true
      rw [hdevA, hsome, Bool.or_true]
    have hstep : stepSlot registry selfId slotId ⟨OverlayType.Device, some devB⟩ st
        = applyReplace slotId ListenerType.Temperature (some devB) st := by
      unfold stepSlot
      rw [hdes]
      show (if shouldReplace (st.listeners.lookup slotId) OverlayType.Device (some devB)
          ListenerType.Temperature then
        applyReplace slotId ListenerType.Temperature (some devB) st else st) = _
      rw [hshould]
      exact if_pos rfl
    have hfresh : e.handle < st.nextHandle := by
      have h1 := hinv.1 slotId
      rw [hlk] at h1
      have hm : (slotId, e.handle) ∈ liveFor st slotId := by
        rw [h1]
        exact List.mem_singleton_self _
      exact hinv.2 _ (List.mem_filter.mp hm).1
    constructor
    · rw [hstep]
      have hinv2 := applyReplace_inv slotId ListenerType.Temperature (some devB) st hinv
      rw [hinv2.1 slotId]
      rw [show (applyReplace slotId ListenerType.Temperature (some devB) st).listeners.lookup
          slotId = some ⟨ListenerType.Temperature, some devB, st.nextHandle⟩
          from lookup_updateEntry_self ..]
    · rw [hstep]
      intro hmem
      rcases List.mem_append.mp hmem with hm1 | hm2
      · rw [hlk] at hm1
        have hpred := (List.mem_filter.mp hm1).2
        simp at hpred
      · simp only [List.mem_singleton, Prod.mk.injEq] at hm2
        omega

/-- Witness for C3: one slot currently bound to device "A" with handle
0, rebound to device "B"; the pass leaves exactly the fresh handle 1
live and handle 0 dead. -/
theorem listener_single_ownership_witness :
    liveFor (stepSlot (fun d => if d = "A" ∨ d = "B" then some ⟨true, false⟩ else none) "cam"
        "1" ⟨OverlayType.Device, some "B"⟩
        ⟨[("1", ⟨ListenerType.Temperature, some "A", 0⟩)], [("1", 0)], 1⟩) "1" = [("1", 1)]
    ∧ ("1", 0) ∉ (stepSlot (fun d => if d = "A" ∨ d = "B" then some ⟨true, false⟩ else none)
        "cam" "1" ⟨OverlayType.Device, some "B"⟩
        ⟨[("1", ⟨ListenerType.Temperature, some "A", 0⟩)], [("1", 0)], 1⟩).live := by
  have hinv0 : EngineInv ⟨[("1", ⟨ListenerType.Temperature, some "A", 0⟩)], [("1", 0)], 1⟩ := by
    constructor
    · intro s
      by_cases hs : s = "1"
      · subst hs
        decide
      · have hb : (s == "1") = false := beq_eq_false_iff_ne.mpr hs
        have hb2 : ¬ ("1" : String) = s := fun hcc => hs hcc.symm
        unfold liveFor
        simp [List.lookup, List.filter, hb, hb2]
    · intro p hp
      simp only [List.mem_singleton] at hp
      subst hp
      decide
  exact (listener_single_ownership
      (fun d => if d = "A" ∨ d = "B" then some ⟨true, false⟩ else none) "cam" [] _ hinv0).2.2
    "1" "A" "B" ⟨ListenerType.Temperature, some "A", 0⟩ ⟨true, false⟩
    (by decide) rfl (by decide) rfl (by decide)

/-- One overlay slot's full stored configuration as read by
`getOverlay` in `utils.ts` (static text, type, source device, value
prefix). -/
structure Overlay where
  text : Option String
  type : OverlayType
  device : Option String
  pfx : Option String
deriving DecidableEq, Repr

/-- The event payloads delivered to the overlay update callback:
object-detection results (with the label of the first face detection,
when any) or a sensor reading rendered by template interpolation. -/
inductive EventData
  | objects (faceLabel : Option String)
  | sensorValue (value : String)
deriving DecidableEq, Repr

/-- Function `parseOverlayData` from `utils.ts`, as called by the mixin (no
`parseNumber`): resolves the display text for one received event.
`none` models a falsy result, for which no write is performed. -/
def parseOverlayData (listenerType : ListenerType) (data : EventData) (ov : Overlay)
    (temperatureUnit : String) : Option String :=
  match listenerType with
  | ListenerType.Face =>
    match data with
    | EventData.objects lbl => lbl
    | EventData.sensorValue _ => none
  | ListenerType.Temperature =>
    match data with
    | EventData.sensorValue v => some ((ov.pfx.getD "") ++ v ++ " " ++ temperatureUnit)
    | EventData.objects _ => none
  | ListenerType.Humidity =>
    match data with
    | EventData.sensorValue v => some ((ov.pfx.getD "") ++ v ++ " %")
    | EventData.objects _ => none

/-- One reconciliation tick of the overlay engine (the interval body of
`init` in `cameraMixin.ts`): `listenersIntevalFn` rewires event
subscriptions and performs no device I/O, then `getOverlayData` issues
a single overlays GET.  The pair returned is the listener state after
the tick and the device requests the tick issued. -/
def reconciliationTick (registry : String → Option RegDevice) (selfId ip : String)
    (slots : List (String × OverlayConfig)) (st : ListenerEngine) :
    ListenerEngine × List HikRequest :=
  (runPass registry selfId slots st,
   [{ method := "GET",
      url := "http://" ++ ip ++ "/ISAPI/System/Video/inputs/channels/1/overlays",
      body := "" }])

/-- C4: if a DeviceBound slot's resolved text is unchanged between two
consecutive reconciliation ticks, no write request is issued on the
second tick.  In this code the conclusion holds for every tick
unconditionally: a reconciliation tick only rewires listeners and
issues the overlays GET, while overlay-text PUTs originate solely from
event callbacks (`updateOverlayData`). -/
theorem reconciliation_no_write_on_unchanged
    (registry : String → Option RegDevice) (selfId ip : String)
    (slots : List (String × OverlayConfig)) (st1 st2 : ListenerEngine)
    (ov : Overlay) (lt : ListenerType) (data1 data2 : EventData) (tempUnit : String)
    (hunchanged : parseOverlayData lt data1 ov tempUnit
      = parseOverlayData lt data2 ov tempUnit) :
    (reconciliationTick registry selfId ip slots st2).2.filter
      (fun r => r.method == "PUT") = [] := rfl

/-- Witness for C4 at a concrete slot, device and unchanged sensor
reading. -/
theorem reconciliation_no_write_on_unchanged_witness :
    (reconciliationTick (fun _ => none) "cam" "1.2.3.4"
      [("1", ⟨OverlayType.Device, some "A"⟩)] ⟨[], [], 0⟩).2.filter
      (fun r => r.method == "PUT") = [] :=
  reconciliation_no_write_on_unchanged (fun _ => none) "cam" "1.2.3.4"
    [("1", ⟨OverlayType.Device, some "A"⟩)] ⟨[], [], 0⟩ ⟨[], [], 0⟩
    ⟨none, OverlayType.Device, some "A", some "T: "⟩ ListenerType.Temperature
    (EventData.sensorValue "21") (EventData.sensorValue "21") "C" rfl

/-- The subsystem capability fields of `HikvisionUtilitiesMixin`. -/
structure MixinState where
  motionCaps : Option String
  streamCaps : List String
  audioCaps : Option String
  timeCaps : Option String
  osdCaps : Option String
  ptzCaps : Option String
  ptzPresets : List String
  deviceInfo : Option String
deriving DecidableEq, Repr

/-- Whether an Except result is a thrown error. -/
def exceptFailed {ε α : Type} : Except ε α → Bool
  | Except.error _ => true
  | Except.ok _ => false

/-- Function `fetchPTZCapabilities` of `cameraMixin.ts`: the two PTZ requests
run inside a try/catch, so any failure is absorbed locally — the
function always returns normally (total type, no Except in the result)
— and resets the PTZ capability to absent (`ptzCaps = null`,
`ptzPresets = []`); full success stores both results. -/
def fetchPTZCapabilities (capsResult : Except String String)
    (presetsResult : Except String (List String)) (st : MixinState) : MixinState :=
  match capsResult with
  | Except.error _ => { st with ptzCaps := none, ptzPresets := [] }
  | Except.ok c =>
    match presetsResult with
    | Except.error _ => { st with ptzCaps := none, ptzPresets := [] }
    | Except.ok p => { st with ptzCaps := some c, ptzPresets := p }

/-- C8: a PTZ capability or preset fetch failure is caught inside
`fetchPTZCapabilities` (the function returns normally — no exception
escapes in the model's total type), PTZ state is reduced to absent, and
every other subsystem's state is untouched. -/
theorem fetchPTZCapabilities_absorbs_failure
    (capsResult : Except String String) (presetsResult : Except String (List String))
    (st : MixinState)
    (hfail : exceptFailed capsResult = true ∨ exceptFailed presetsResult = true) :
    (fetchPTZCapabilities capsResult presetsResult st).ptzCaps = none
    ∧ (fetchPTZCapabilities capsResult presetsResult st).ptzPresets = []
    ∧ (fetchPTZCapabilities capsResult presetsResult st).motionCaps = st.motionCaps
    ∧ (fetchPTZCapabilities capsResult presetsResult st).streamCaps = st.streamCaps
    ∧ (fetchPTZCapabilities capsResult presetsResult st).audioCaps = st.audioCaps
    ∧ (fetchPTZCapabilities capsResult presetsResult st).timeCaps = st.timeCaps
    ∧ (fetchPTZCapabilities capsResult presetsResult st).osdCaps = st.osdCaps
    ∧ (fetchPTZCapabilities capsResult presetsResult st).deviceInfo = st.deviceInfo := by
  cases capsResult with
  | error e => simp [fetchPTZCapabilities]
  | ok c =>
    cases presetsResult with
    | error e => simp [fetchPTZCapabilities]
    | ok p => simp [exceptFailed] at hfail

/-- Witness for C8: a failing capability fetch on a populated state. -/
theorem fetchPTZCapabilities_absorbs_failure_witness :
    (fetchPTZCapabilities (Except.error "timeout") (Except.ok [])
      ⟨some "m", ["s"], some "a", some "t", some "o", some "p", ["p1"], some "d"⟩).ptzCaps = none
    ∧ (fetchPTZCapabilities (Except.error "timeout") (Except.ok [])
      ⟨some "m", ["s"], some "a", some "t", some "o", some "p", ["p1"], some "d"⟩).motionCaps
      = some "m" :=
  ⟨(fetchPTZCapabilities_absorbs_failure (Except.error "timeout") (Except.ok [])
      ⟨some "m", ["s"], some "a", some "t", some "o", some "p", ["p1"], some "d"⟩
      (Or.inl rfl)).1,
   (fetchPTZCapabilities_absorbs_failure (Except.error "timeout") (Except.ok [])
      ⟨some "m", ["s"], some "a", some "t", some "o", some "p", ["p1"], some "d"⟩
      (Or.inl rfl)).2.2.1⟩

/-- The seven subsystems fetched by `init` in `cameraMixin.ts`, in
source order. -/
inductive Subsystem
  | motion
  | stream
  | audio
  | time
  | osd
  | ptz
  | info
deriving DecidableEq, Repr

/-- Whether each subsystem's fetch succeeds in a given run. -/
structure FetchOutcome where
  motionOk : Bool
  streamOk : Bool
  audioOk : Bool
  timeOk : Bool
  osdOk : Bool
  ptzOk : Bool
  infoOk : Bool
deriving DecidableEq, Repr

/-- Outcome of one subsystem's fetch. -/
def fetchOk (o : FetchOutcome) : Subsystem → Bool
  | Subsystem.motion => o.motionOk
  | Subsystem.stream => o.streamOk
  | Subsystem.audio => o.audioOk
  | Subsystem.time => o.timeOk
  | Subsystem.osd => o.osdOk
  | Subsystem.ptz => o.ptzOk
  | Subsystem.info => o.infoOk

/-- The fetch order of `init`. -/
def initOrder : List Subsystem :=
  [Subsystem.motion, Subsystem.stream, Subsystem.audio, Subsystem.time,
   Subsystem.osd, Subsystem.ptz, Subsystem.info]

/-- The sequential `await` chain of `init`: each fetch runs in order;
only the PTZ fetch is internally caught (its failure degrades PTZ and
execution continues), while a failure of any other fetch throws out of
`init`, so the remaining fetches never run.  Returns the fetches that
ran and whether `init` completed normally. -/
def initRunGo (o : FetchOutcome) : List Subsystem → List Subsystem × Bool
  | [] => ([], true)
  | s :: rest =>
    if fetchOk o s ∨ s = Subsystem.ptz then
      (s :: (initRunGo o rest).1, (initRunGo o rest).2)
    else ([s], false)

/-- The whole `init` fetch sequence. -/
def initRun (o : FetchOutcome) : List Subsystem × Bool := initRunGo o initOrder

/-- Counterexample to C9: with a failing motion fetch (and every other
fetch able to succeed), `init` throws after the first fetch — the
streaming fetch (and all later ones) never runs, so the subsystems do
not fail independently. -/
theorem init_not_fault_isolated :
    Subsystem.stream ∉ (initRun ⟨false, true, true, true, true, true, true⟩).1
    ∧ initRun ⟨false, true, true, true, true, true, true⟩ = ([Subsystem.motion], false) := by
  decide

theorem initRunGo_all_ok (o : FetchOutcome) :
    ∀ l : List Subsystem, (∀ s ∈ l, fetchOk o s = true ∨ s = Subsystem.ptz) →
      initRunGo o l = (l, true) := by
  intro l
  induction l with
  | nil => intro _; rfl
  | cons s rest ih =>
    intro h
    have hcond : fetchOk o s ∨ s = Subsystem.ptz := by
      rcases h s (List.mem_cons_self s rest) with h1 | h2
      · exact Or.inl (by rw [h1])
      · exact Or.inr h2
    unfold initRunGo
    rw [if_pos hcond, ih (fun t ht => h t (List.mem_cons_of_mem _ ht))]

theorem initRunGo_first_fail (o : FetchOutcome) :
    ∀ (l1 : List Subsystem) (s : Subsystem) (l2 : List Subsystem),
      (∀ t ∈ l1, fetchOk o t = true ∨ t = Subsystem.ptz) →
      s ≠ Subsystem.ptz → fetchOk o s = false →
      initRunGo o (l1 ++ s :: l2) = (l1 ++ [s], false) := by
  intro l1
  induction l1 with
  | nil =>
    intro s l2 _ hs hfail
    show initRunGo o (s :: l2) = ([s], false)
    unfold initRunGo
    rw [if_neg ?hcond]
    case hcond =>
      rintro (h1 | h2)
      · rw [hfail] at h1
        exact absurd h1 (by simp)
      · exact hs h2
  | cons t rest ih =>
    intro s l2 h hs hfail
    have hcond : fetchOk o t ∨ t = Subsystem.ptz := by
      rcases h t (List.mem_cons_self t rest) with h1 | h2
      · exact Or.inl (by rw [h1])
      · exact Or.inr h2
    show initRunGo o (t :: (rest ++ s :: l2)) = ((t :: rest) ++ [s], false)
    unfold initRunGo
    rw [if_pos hcond, ih s l2 (fun u hu => h u (List.mem_cons_of_mem _ hu)) hs hfail]
    rfl

/-- C9 amended: only the PTZ fetch fails independently.  When every
non-PTZ fetch succeeds, all seven fetches run and `init` completes
regardless of the PTZ outcome (a PTZ failure degrades only PTZ).  A
failure of any other subsystem's fetch propagates out of `init`: for
any non-PTZ subsystem `s` that is the first uncaught failure (every
fetch before it succeeded or was the internally caught PTZ fetch),
`init` aborts right after `s` and none of the remaining fetches runs. -/
theorem init_fetch_isolation_ptz_only (o : FetchOutcome)
    (hothers : o.motionOk ∧ o.streamOk ∧ o.audioOk ∧ o.timeOk ∧ o.osdOk ∧ o.infoOk) :
    ((initRun o).1 = initOrder ∧ (initRun o).2 = true)
    ∧ ∀ (o2 : FetchOutcome) (l1 : List Subsystem) (s : Subsystem) (l2 : List Subsystem),
        initOrder = l1 ++ s :: l2 →
        (∀ t ∈ l1, fetchOk o2 t = true ∨ t = Subsystem.ptz) →
        s ≠ Subsystem.ptz → fetchOk o2 s = false →
        initRun o2 = (l1 ++ [s], false) ∧ ∀ t ∈ l2, t ∉ (initRun o2).1 := by
  constructor
  · obtain ⟨hm, hs, ha, ht, ho, hi⟩ := hothers
    cases hp : o.ptzOk with
    | false =>
      constructor <;>
        simp [initRun, initRunGo, initOrder, fetchOk, hm, hs, ha, ht, ho, hi, hp]
    | true =>
      constructor <;>
        simp [initRun, initRunGo, initOrder, fetchOk, hm, hs, ha, ht, ho, hi, hp]
  · intro o2 l1 s l2 hdecomp hbefore hs hfail
    have hrun : initRun o2 = (l1 ++ [s], false) := by
      unfold initRun
      rw [hdecomp]
      exact initRunGo_first_fail o2 l1 s l2 hbefore hs hfail
    refine ⟨hrun, ?_⟩
    intro t ht hmem
    rw [hrun] at hmem
    have hnd : initOrder.Nodup := by decide
    rw [hdecomp] at hnd
    rcases List.mem_append.mp hmem with h1 | h2
    · have hdisj := (List.nodup_append.mp hnd).2.2
      exact hdisj h1 (List.mem_cons_of_mem _ ht)
    · simp only [List.mem_singleton] at h2
      subst h2
      have hcons := (List.nodup_append.mp hnd).2.1
      exact (List.nodup_cons.mp hcons).1 ht

/-- Witness for the amended C9: a PTZ-only failure leaves all seven
fetches run; a failing streaming fetch (motion having succeeded) aborts
`init` right after the streaming fetch, the audio fetch never running. -/
theorem init_fetch_isolation_ptz_only_witness :
    (initRun ⟨true, true, true, true, true, false, true⟩).1 = initOrder
    ∧ initRun ⟨true, false, true, true, true, true, true⟩
      = ([Subsystem.motion, Subsystem.stream], false)
    ∧ Subsystem.audio ∉ (initRun ⟨true, false, true, true, true, true, true⟩).1 :=
  ⟨(init_fetch_isolation_ptz_only ⟨true, true, true, true, true, false, true⟩
      (by decide)).1.1,
   ((init_fetch_isolation_ptz_only ⟨true, true, true, true, true, false, true⟩
      (by decide)).2 ⟨true, false, true, true, true, true, true⟩
      [Subsystem.motion] Subsystem.stream
      [Subsystem.audio, Subsystem.time, Subsystem.osd, Subsystem.ptz, Subsystem.info]
      (by decide) (by decide) (by decide) rfl).1,
   ((init_fetch_isolation_ptz_only ⟨true, true, true, true, true, false, true⟩
      (by decide)).2 ⟨true, false, true, true, true, true, true⟩
      [Subsystem.motion] Subsystem.stream
      [Subsystem.audio, Subsystem.time, Subsystem.osd, Subsystem.ptz, Subsystem.info]
      (by decide) (by decide) (by decide) rfl).2
     Subsystem.audio (by decide)⟩
